import Mathlib

/-!
Shallow embedding of the h2h batch front-matter conversion engine: the
`internal` package's `ConvertPosts`, `convertFile`,
`MarkdownConverter.ConvertMarkdown`, `FrontMatterConverter.ConvertFrontMatter`,
`unmarshalFrontMatter`, `marshalFrontMatter`, `getHexoToHugoKeyMap` and
`getHugoToHexoKeyMap`.

Modelling conventions:
* Go `map[string]T` values are association lists in iteration order, with
  `assocGet` for indexing and `assocSet` for assignment.
* The yaml/toml libraries are external collaborators; the engine is embedded
  against an injected `CodecEnv` holding one decode/encode pair per format,
  with metadata values opaque (type parameter `V`, Go `interface{}`).
* Filesystem paths are component lists; the destination tree is a partial map
  from paths to contents plus the set of created directories.
* The bounded worker pool of `ConvertPosts` is embedded as a sequential loop
  over the admitted tasks in a caller-chosen order; order independence of the
  resulting destination tree is proved rather than assumed.
-/

namespace H2H

/-- A metadata record: an association list from field name to an opaque value,
in Go-map iteration order (Go `map[string]interface{}`). -/
abbrev Record (V : Type) := List (String × V)

/-- Go map indexing `m[k]` on an association-list map. -/
def assocGet {α : Type} : List (String × α) → String → Option α
  | [], _ => none
  | p :: rest, k => if p.1 = k then some p.2 else assocGet rest k

/-- Go map assignment `m[k] = v` on an association-list map: replaces the
binding of `k` if present, appends a new binding otherwise. -/
def assocSet {α : Type} : List (String × α) → String → α → List (String × α)
  | [], k, v => [(k, v)]
  | p :: rest, k, v => if p.1 = k then (k, v) :: rest else p :: assocSet rest k v

/-- The canonical hexo→hugo field-name table (source `getHexoToHugoKeyMap`). -/
def getHexoToHugoKeyMap : List (String × String) :=
  [("title", "title"), ("categories", "categories"), ("date", "date"),
   ("description", "description"), ("keywords", "keywords"), ("permalink", "slug"),
   ("tags", "tags"), ("updated", "lastmod")]

/-- The hugo→hexo table, derived mechanically by inverting the canonical table
(source `getHugoToHexoKeyMap`: `hugoToHexo[hugo] = hexo` for every entry). -/
def getHugoToHexoKeyMap : List (String × String) :=
  getHexoToHugoKeyMap.foldl (fun acc p => assocSet acc p.2 p.1) []

/-- An injected serialization codec: one decode/encode pair for one format. -/
structure Codec (V : Type) where
  decode : String → Except String (Record V)
  encode : Record V → Except String String

/-- The two registered codecs, selected by format name. -/
structure CodecEnv (V : Type) where
  yaml : Codec V
  toml : Codec V

/-- Source `unmarshalFrontMatter`: dispatch decoding on the format name and
reject unknown names. -/
def unmarshalFrontMatter {V : Type} (env : CodecEnv V) (format : String)
    (data : String) : Except String (Record V) :=
  if format = "yaml" then env.yaml.decode data
  else if format = "toml" then env.toml.decode data
  else Except.error ("unsupported front matter format: " ++ format)

/-- Source `marshalFrontMatter`: dispatch encoding on the format name and
reject unknown names. -/
def marshalFrontMatter {V : Type} (env : CodecEnv V) (format : String)
    (v : Record V) : Except String String :=
  if format = "yaml" then env.yaml.encode v
  else if format = "toml" then env.toml.encode v
  else Except.error ("unsupported front matter format: " ++ format)

/-- Source `Config`. -/
structure Config where
  SourceFormat : String
  TargetFormat : String
  FileExtension : String
  MaxConcurrency : Nat
  ConversionDirection : String
deriving DecidableEq

/-- Source `NewDefaultConfig`. -/
def NewDefaultConfig : Config := ⟨"yaml", "yaml", ".md", 4, "hexo2hugo"⟩

/-- Source `FrontMatterConverter`. -/
structure FrontMatterConverter where
  keyMap : List (String × String)
  sourceFormat : String
  targetFormat : String

/-- Source `NewFrontMatterConverter`: the key map is selected from the
conversion direction. -/
def NewFrontMatterConverter (cfg : Config) : FrontMatterConverter :=
  ⟨if cfg.ConversionDirection = "hexo2hugo" then getHexoToHugoKeyMap
    else getHugoToHexoKeyMap,
   cfg.SourceFormat, cfg.TargetFormat⟩

/-- The key-remapping loop of `ConvertFrontMatter`: each field is stored under
its mapped name when the key map has one, under its original name otherwise;
values are copied untouched. -/
def convertRecord {V : Type} (keyMap : List (String × String)) (rec : Record V) :
    Record V :=
  rec.foldl
    (fun acc kv =>
      match assocGet keyMap kv.1 with
      | some convertedKey => assocSet acc convertedKey kv.2
      | none => assocSet acc kv.1 kv.2)
    []

/-- The output name of one field under a key map: the two branches of the
remapping loop body. -/
def mappedKey (keyMap : List (String × String)) (k : String) : String :=
  match assocGet keyMap k with
  | some convertedKey => convertedKey
  | none => k

/-- Source `FrontMatterConverter.ConvertFrontMatter`: decode the block in the
source format, remap the keys, re-encode in the target format, and wrap the
result in `---` delimiters. -/
def ConvertFrontMatter {V : Type} (env : CodecEnv V) (fmc : FrontMatterConverter)
    (frontMatter : String) : Except String String :=
  match unmarshalFrontMatter env fmc.sourceFormat frontMatter with
  | Except.error e => Except.error ("unmarshaling front matter: " ++ e)
  | Except.ok frontMatterMap =>
    match marshalFrontMatter env fmc.targetFormat
        (convertRecord fmc.keyMap frontMatterMap) with
    | Except.error e => Except.error ("marshaling front matter: " ++ e)
    | Except.ok buf => Except.ok ("---\n" ++ buf ++ "---")

/-- Index of the first occurrence of `sep` in a character list
(Go `strings.Index`). -/
def strFindSub (sep : List Char) : List Char → Option Nat
  | [] => if sep.isPrefixOf ([] : List Char) then some 0 else none
  | c :: t =>
    if sep.isPrefixOf (c :: t) then some 0
    else (strFindSub sep t).map (fun i => i + 1)

/-- Go `strings.SplitN(s, sep, n)` on character lists: split around the first
`n - 1` non-overlapping occurrences of `sep`. -/
def splitNChars (sep : List Char) : Nat → List Char → List (List Char)
  | 0, _ => []
  | 1, s => [s]
  | n + 2, s =>
    match strFindSub sep s with
    | none => [s]
    | some i => s.take i :: splitNChars sep (n + 1) (s.drop (i + sep.length))

/-- Go `strings.SplitN` on strings. -/
def splitN (s sep : String) (n : Nat) : List String :=
  (splitNChars sep.data n s.data).map String.mk

/-- Number of non-overlapping occurrences of `sep` in the character list
(Go `strings.Count` for nonempty `sep`), with fuel: each found occurrence
consumes at least one character, so fuel `length + 1` always suffices. -/
def countSubChars (sep : List Char) : Nat → List Char → Nat
  | 0, _ => 0
  | fuel + 1, s =>
    match strFindSub sep s with
    | none => 0
    | some i => 1 + countSubChars sep fuel (s.drop (i + sep.length))

/-- Number of non-overlapping occurrences of `sep` in `s`. -/
def occurrenceCount (s sep : String) : Nat :=
  countSubChars sep.data (s.data.length + 1) s.data

/-- Source `MarkdownConverter`. -/
structure MarkdownConverter where
  fmc : FrontMatterConverter

/-- Source `NewMarkdownConverter`. -/
def NewMarkdownConverter (cfg : Config) : MarkdownConverter :=
  ⟨NewFrontMatterConverter cfg⟩

/-- Source `MarkdownConverter.ConvertMarkdown`: split the content on `---` into
at most three parts, reject fewer than three, convert the middle part, and
reassemble as converted block, blank line, original third part. -/
def ConvertMarkdown {V : Type} (env : CodecEnv V) (mc : MarkdownConverter)
    (content : String) : Except String String :=
  let parts := splitN content "---" 3
  if parts.length < 3 then
    Except.error "parsing content: invalid hexo/hugo markdown format"
  else
    match ConvertFrontMatter env mc.fmc (parts.getD 1 "") with
    | Except.error e => Except.error ("converting front matter: " ++ e)
    | Except.ok convertedFrontMatter =>
      Except.ok (convertedFrontMatter ++ "\n\n" ++ parts.getD 2 "")

/-- The region of a document after its second `---` delimiter. -/
def bodyAfterSecondDelim (s : String) : String := (splitN s "---" 3).getD 2 ""

/-- A filesystem path as its list of components. -/
abbrev Path := List String

/-- One entry visited by the `filepath.Walk` enumeration of the source tree. -/
structure SrcFile where
  path : Path
  isDir : Bool
  content : String
deriving DecidableEq

/-- Go `strings.HasSuffix`. -/
def hasSuffix (s suffix : String) : Bool := List.isSuffixOf suffix.data s.data

/-- `info.Name()`: the last path component. -/
def lastName (p : Path) : String := (p.getLast?).getD ""

/-- The walk-callback filter: skip directories and names not ending in the
configured extension. -/
def eligible (cfg : Config) (f : SrcFile) : Bool :=
  !f.isDir && hasSuffix (lastName f.path) cfg.FileExtension

/-- Destination path of one task:
`filepath.Join(dstDir, filepath.Rel(srcDir, path))`. Walked paths live under
`srcDir`, where `filepath.Rel` strips the `srcDir` components and
`filepath.Join` appends the remainder. -/
def dstPathOf (srcDir dstDir : Path) (f : SrcFile) : Path :=
  dstDir ++ f.path.drop srcDir.length

/-- Destination-tree state: the files written so far (a partial map from path
to contents) and the directories created so far. -/
structure FS where
  files : Path → Option String
  dirs : Path → Bool

/-- Point update of the file map (`os.Create` / the destination write). -/
def fsWrite (m : Path → Option String) (k : Path) (v : String) :
    Path → Option String :=
  fun p => if p = k then some v else m p

/-- Point removal from the file map (`os.Remove`). -/
def fsRemove (m : Path → Option String) (k : Path) : Path → Option String :=
  fun p => if p = k then none else m p

/-- `os.MkdirAll`: afterwards the directory and all its ancestors exist. -/
def mkdirAll (dirs : Path → Bool) (p : Path) : Path → Bool :=
  fun d => dirs d || List.isPrefixOf d p

/-- Source `convertFile` as a transformer of the destination tree: create the
parent directories, create (truncate) the destination file, then either fill
it with the converted output or — when conversion or the destination write
fails — remove it before the task completes. `r` is the outcome of
`ConvertMarkdown` on the task's source; content-read, conversion and write
errors all flow through this single error path in the source. -/
def convertFile (fs : FS) (dstPath : Path) (r : Except String String) : FS :=
  let dirs1 := mkdirAll fs.dirs dstPath.dropLast
  let files1 := fsWrite fs.files dstPath ""
  match r with
  | Except.error _ => ⟨fsRemove files1 dstPath, dirs1⟩
  | Except.ok out => ⟨fsWrite files1 dstPath out, dirs1⟩

/-- Source `ConversionError`. -/
structure ConversionError where
  SourceFile : Path
  Err : String
deriving DecidableEq

/-- Successful results as `some`, failures as `none`. -/
def exceptToOption {ε α : Type} : Except ε α → Option α
  | Except.ok a => some a
  | Except.error _ => none

/-- Whether an `Except` value is an error. -/
def exceptFailed {ε α : Type} : Except ε α → Bool
  | Except.ok _ => false
  | Except.error _ => true

/-- The worker loop of `ConvertPosts`: one task per admitted file, each task
converting its own source, writing its own destination path and appending its
failure, if any, to the shared outcome list. The embedding runs the tasks in
the given admission order; the concurrency bound only limits simultaneity in
the source and feeds no per-task data flow. -/
def convertPostsLoop {V : Type} (env : CodecEnv V) (mc : MarkdownConverter)
    (srcDir dstDir : Path) :
    List SrcFile → FS → List ConversionError → FS × List ConversionError
  | [], fs, errs => (fs, errs)
  | f :: rest, fs, errs =>
    let r := ConvertMarkdown env mc f.content
    convertPostsLoop env mc srcDir dstDir rest
      (convertFile fs (dstPathOf srcDir dstDir f) r)
      (match r with
       | Except.error e => errs ++ [⟨f.path, "converting file: " ++ e⟩]
       | Except.ok _ => errs)

/-- The eligible files of one walk, in walk order. -/
def batchTasks (cfg : Config) (walk : List SrcFile) : List SrcFile :=
  walk.filter (eligible cfg)

/-- Batch outcome surface of `ConvertPosts`. -/
structure BatchResult where
  fs : FS
  failures : List ConversionError
  outcome : Except String Unit

/-- Source `ConvertPosts`: make the destination root, run one conversion task
per eligible walked file, and return an aggregate error exactly when the
failure list is nonempty. `walk` is the list of entries `filepath.Walk` visits
under `srcDir`. -/
def ConvertPosts {V : Type} (env : CodecEnv V) (srcDir dstDir : Path)
    (cfg : Config) (walk : List SrcFile) : BatchResult :=
  let mc := NewMarkdownConverter cfg
  let init : FS := ⟨fun _ => none, mkdirAll (fun _ => false) dstDir⟩
  let r := convertPostsLoop env mc srcDir dstDir (batchTasks cfg walk) init []
  ⟨r.1, r.2,
    if 0 < r.2.length then
      Except.error ("encountered " ++ toString r.2.length ++ " errors during conversion")
    else Except.ok ()⟩

/-- The per-task conversion result as it appears in the destination tree. -/
def resultOf {V : Type} (env : CodecEnv V) (mc : MarkdownConverter)
    (f : SrcFile) : Option String :=
  exceptToOption (ConvertMarkdown env mc f.content)

/-- The same configuration with a different concurrency limit. -/
def setConcurrency (cfg : Config) (n : Nat) : Config :=
  ⟨cfg.SourceFormat, cfg.TargetFormat, cfg.FileExtension, n, cfg.ConversionDirection⟩

/-- A minimal injected codec environment for evaluating the engine on concrete
inputs: decoding yields the empty record, encoding yields the empty block. -/
def trivialEnv : CodecEnv Unit :=
  ⟨⟨fun _ => Except.ok [], fun _ => Except.ok ""⟩,
   ⟨fun _ => Except.ok [], fun _ => Except.ok ""⟩⟩

end H2H

namespace H2H

/-- Setting a key makes it readable back. -/
theorem assocGet_set_self {α : Type} (m : List (String × α)) (k : String) (v : α) :
    assocGet (assocSet m k v) k = some v := by
  induction m with
  | nil => simp [assocSet, assocGet]
  | cons p rest ih =>
    by_cases h : p.1 = k
    · simp [assocSet, assocGet, h]
    · simp [assocSet, assocGet, h, ih]

/-- Setting a key leaves every other key unchanged. -/
theorem assocGet_set_ne {α : Type} (m : List (String × α)) (k k' : String) (v : α)
    (h : k' ≠ k) : assocGet (assocSet m k v) k' = assocGet m k' := by
  induction m with
  | nil =>
    have hk : ¬k = k' := fun hh => h hh.symm
    simp [assocSet, assocGet, hk]
  | cons p rest ih =>
    by_cases hp : p.1 = k
    · subst hp
      have hk : ¬p.1 = k' := fun hh => h hh.symm
      simp [assocSet, assocGet, hk]
    · simp only [assocSet, if_neg hp]
      by_cases hq : p.1 = k'
      · simp [assocGet, hq]
      · simp [assocGet, hq, ih]

/-- The remapping loop body, named: each field goes to `mappedKey` of its name. -/
theorem convertRecord_eq {V : Type} (keyMap : List (String × String)) (rec : Record V) :
    convertRecord keyMap rec
      = rec.foldl (fun acc kv => assocSet acc (mappedKey keyMap kv.1) kv.2) [] := by
  unfold convertRecord mappedKey
  congr 1
  funext acc kv
  cases assocGet keyMap kv.1 <;> rfl

/-- Keys not written by a fold of assignments read through to the accumulator. -/
theorem foldl_assocSet_get {V : Type} (g : String × V → String)
    (l : List (String × V)) (acc : Record V) (q : String)
    (hq : ∀ kv ∈ l, g kv ≠ q) :
    assocGet (l.foldl (fun a p => assocSet a (g p) p.2) acc) q = assocGet acc q := by
  induction l generalizing acc with
  | nil => rfl
  | cons p rest ih =>
    simp only [List.foldl_cons]
    rw [ih _ (fun x hx => hq x (List.mem_cons_of_mem _ hx))]
    exact assocGet_set_ne _ _ _ _ (Ne.symm (hq p (List.mem_cons_self _ _)))

/-- When the written keys are pairwise distinct, every field of the input can be
read back under its written key with its value unchanged. -/
theorem foldl_assocSet_get_mem {V : Type} (g : String × V → String)
    (l : List (String × V)) (acc : Record V)
    (hinj : (l.map g).Nodup) :
    ∀ kv ∈ l, assocGet (l.foldl (fun a p => assocSet a (g p) p.2) acc) (g kv) = some kv.2 := by
  induction l generalizing acc with
  | nil => intro kv h; cases h
  | cons p rest ih =>
    have hinj' : (g p :: rest.map g).Nodup := by simpa using hinj
    have hnd : g p ∉ rest.map g ∧ (rest.map g).Nodup := List.nodup_cons.mp hinj'
    intro kv hkv
    rcases List.mem_cons.mp hkv with rfl | hmem
    · simp only [List.foldl_cons]
      rw [foldl_assocSet_get g rest _ (g kv)
        (fun x hx hgx => hnd.1 (hgx ▸ List.mem_map_of_mem g hx))]
      exact assocGet_set_self _ _ _
    · simp only [List.foldl_cons]
      exact ih _ hnd.2 kv hmem

/-- C6: the hugo→hexo map is the mechanical inverse of the hexo→hugo canonical
table: every key of the forward table maps forward then backward to itself, and
every key of the derived backward table maps backward then forward to itself;
each table's keys are exactly the other's values. -/
theorem keymaps_round_trip :
    (∀ p ∈ getHexoToHugoKeyMap,
        assocGet getHexoToHugoKeyMap p.1 = some p.2
          ∧ assocGet getHugoToHexoKeyMap p.2 = some p.1)
    ∧ (∀ p ∈ getHugoToHexoKeyMap,
        assocGet getHugoToHexoKeyMap p.1 = some p.2
          ∧ assocGet getHexoToHugoKeyMap p.2 = some p.1) := by
  decide

/-- Witness for C6 at the one non-identity pair: `permalink` maps forward to
`slug` and `slug` maps back to `permalink`. -/
theorem keymaps_round_trip_witness :
    ("permalink", "slug") ∈ getHexoToHugoKeyMap
      ∧ assocGet getHexoToHugoKeyMap "permalink" = some "slug"
      ∧ assocGet getHugoToHexoKeyMap "slug" = some "permalink" :=
  ⟨by decide,
   (keymaps_round_trip.1 ("permalink", "slug") (by decide)).1,
   (keymaps_round_trip.1 ("permalink", "slug") (by decide)).2⟩

/-- C7 as stated fails on a remapping collision: with the hexo→hugo table, the
record `{permalink: x, slug: y}` maps `permalink` (a key of the table) to
`slug`, but the transformed record does not hold `x` under `slug` — the
pass-through field `slug` overwrites it (last write wins). -/
theorem field_passthrough_counterexample :
    assocGet getHexoToHugoKeyMap "permalink" = some "slug"
      ∧ assocGet getHexoToHugoKeyMap "slug" = none
      ∧ convertRecord getHexoToHugoKeyMap [("permalink", "x"), ("slug", "y")]
          = [("slug", "y")]
      ∧ assocGet (convertRecord getHexoToHugoKeyMap [("permalink", "x"), ("slug", "y")])
          "slug" ≠ some "x" := by
  refine ⟨by decide, by decide, by decide, by decide⟩

/-- C7 (amended): when the remapped field names are pairwise distinct (no
collision — the source's accepted lossy edge case is excluded), every field of
the decoded record appears in the transformed record under its mapped name
(its original name exactly when it is not a key of the map) with its value
unchanged. -/
theorem field_passthrough (V : Type) (keyMap : List (String × String))
    (rec : Record V)
    (hinj : (rec.map (fun kv => mappedKey keyMap kv.1)).Nodup) :
    (∀ kv ∈ rec, assocGet keyMap kv.1 = none → mappedKey keyMap kv.1 = kv.1)
    ∧ (∀ kv ∈ rec, ∀ ck, assocGet keyMap kv.1 = some ck → mappedKey keyMap kv.1 = ck)
    ∧ (∀ kv ∈ rec,
        assocGet (convertRecord keyMap rec) (mappedKey keyMap kv.1) = some kv.2) := by
  refine ⟨?_, ?_, ?_⟩
  · intro kv _ h; simp [mappedKey, h]
  · intro kv _ ck h; simp [mappedKey, h]
  · intro kv hkv
    rw [convertRecord_eq]
    exact foldl_assocSet_get_mem _ rec [] hinj kv hkv

/-- Witness for the amended C7 on a concrete record with one mapped and one
unmapped field. -/
theorem field_passthrough_witness :
    ([("permalink", "x"), ("author", "z")].map
        (fun kv => mappedKey getHexoToHugoKeyMap kv.1)).Nodup
    ∧ ((∀ kv ∈ ([("permalink", "x"), ("author", "z")] : Record String),
          assocGet getHexoToHugoKeyMap kv.1 = none
            → mappedKey getHexoToHugoKeyMap kv.1 = kv.1)
        ∧ (∀ kv ∈ ([("permalink", "x"), ("author", "z")] : Record String),
            ∀ ck, assocGet getHexoToHugoKeyMap kv.1 = some ck
              → mappedKey getHexoToHugoKeyMap kv.1 = ck)
        ∧ (∀ kv ∈ ([("permalink", "x"), ("author", "z")] : Record String),
            assocGet (convertRecord getHexoToHugoKeyMap [("permalink", "x"), ("author", "z")])
              (mappedKey getHexoToHugoKeyMap kv.1) = some kv.2)) :=
  ⟨by decide, field_passthrough String getHexoToHugoKeyMap _ (by decide)⟩

end H2H

namespace H2H

/-- `strings.Index` returns 0 when the pattern heads the string. -/
theorem strFindSub_of_isPrefixOf (sep s : List Char) (h : sep.isPrefixOf s = true) :
    strFindSub sep s = some 0 := by
  cases s <;> simp [strFindSub, h]

/-- A found occurrence lies inside the string. -/
theorem strFindSub_some_le (sep : List Char) :
    ∀ {s : List Char} {i : Nat}, strFindSub sep s = some i → i + sep.length ≤ s.length := by
  intro s
  induction s with
  | nil =>
    intro i h
    simp only [strFindSub] at h
    split at h
    · have hsep : sep = [] := List.prefix_nil.mp (List.isPrefixOf_iff_prefix.mp (by assumption))
      cases h
      simp [hsep]
    · cases h
  | cons c t ih =>
    intro i h
    simp only [strFindSub] at h
    split at h
    · cases h
      have := List.IsPrefix.length_le (List.isPrefixOf_iff_prefix.mp (by assumption))
      simpa using this
    · rcases Option.map_eq_some'.mp h with ⟨j, hj, rfl⟩
      have := ih hj
      simp only [List.length_cons]
      omega

/-- The split of C3: at most one occurrence of the delimiter is exactly a split
into fewer than three parts. -/
theorem countSubChars_le_one_iff (sep : List Char) (hsep : 0 < sep.length)
    (cs : List Char) :
    countSubChars sep (cs.length + 1) cs ≤ 1 ↔ (splitNChars sep 3 cs).length < 3 := by
  rcases h1 : strFindSub sep cs with _ | i
  · simp [countSubChars, splitNChars, h1]
  · have hle := strFindSub_some_le sep h1
    obtain ⟨m, hm⟩ : ∃ m, cs.length = m + 1 := ⟨cs.length - 1, by omega⟩
    rcases h2 : strFindSub sep (cs.drop (i + sep.length)) with _ | j
    · simp [countSubChars, splitNChars, h1, h2, hm]
    · simp only [countSubChars, splitNChars, h1, h2, hm]
      simp [List.length_cons]

/-- C3's equivalence at the string level, for the `---` delimiter. -/
theorem occurrenceCount_le_one_iff (s : String) :
    occurrenceCount s "---" ≤ 1 ↔ (splitN s "---" 3).length < 3 := by
  unfold occurrenceCount splitN
  rw [List.length_map]
  exact countSubChars_le_one_iff ("---".data) (by decide) s.data

/-- Unfolding `strings.Index` one character when the pattern does not head the
string. -/
theorem strFindSub_cons_neg (sep : List Char) (c : Char) (t : List Char)
    (h : sep.isPrefixOf (c :: t) = false) :
    strFindSub sep (c :: t) = (strFindSub sep t).map (fun i => i + 1) := by
  simp [strFindSub, h]

/-- The first occurrence of `sep` in `lhs ++ sep ++ rest` is at `lhs.length`
when no occurrence starts inside `lhs`. -/
theorem strFindSub_first (sep rest : List Char) :
    ∀ (lhs : List Char),
      (∀ j, j < lhs.length →
        sep.isPrefixOf ((lhs ++ (sep ++ rest)).drop j) = false) →
      strFindSub sep (lhs ++ (sep ++ rest)) = some lhs.length := by
  intro lhs
  induction lhs with
  | nil =>
    intro _
    simp only [List.nil_append, List.length_nil]
    exact strFindSub_of_isPrefixOf sep _
      (List.isPrefixOf_iff_prefix.mpr (List.prefix_append sep rest))
  | cons c l ih =>
    intro H
    have h0 : sep.isPrefixOf (c :: (l ++ (sep ++ rest))) = false := by
      have := H 0 (by simp)
      simpa using this
    have hcons : (c :: l) ++ (sep ++ rest) = c :: (l ++ (sep ++ rest)) := rfl
    rw [hcons, strFindSub_cons_neg sep _ _ h0, ih (fun j hj => by
      have := H (j + 1) (by simpa using Nat.succ_lt_succ hj)
      simpa [List.drop_succ_cons] using this)]
    rfl

/-- Splitting the reassembled wire form `sep ++ lhs ++ sep ++ rest` with limit 3
recovers the three regions, when no `sep` occurrence starts inside `lhs`. -/
theorem splitNChars_wire (sep lhs rest : List Char)
    (H : ∀ j, j < lhs.length →
      sep.isPrefixOf ((lhs ++ (sep ++ rest)).drop j) = false) :
    splitNChars sep 3 (sep ++ (lhs ++ (sep ++ rest))) = [[], lhs, rest] := by
  have h1 : strFindSub sep (sep ++ (lhs ++ (sep ++ rest))) = some 0 :=
    strFindSub_of_isPrefixOf sep _
      (List.isPrefixOf_iff_prefix.mpr (List.prefix_append _ _))
  have h2 := strFindSub_first sep rest lhs H
  simp only [splitNChars, h1, h2, List.take_zero, Nat.zero_add, List.drop_left,
    List.take_left]
  have hdrop : (lhs ++ (sep ++ rest)).drop (lhs.length + sep.length) = rest := by
    rw [← List.append_assoc, ← List.length_append]
    exact List.drop_left _ _
  rw [hdrop]

/-- Rebuilding a one-character-prefixed string. -/
theorem mk_cons_nl (s : String) : String.mk ('\n' :: s.data) = "\n" ++ s := by
  obtain ⟨d⟩ := s
  rfl

/-- Rebuilding a two-newline-prefixed string. -/
theorem mk_cons_nl2 (s : String) : String.mk ('\n' :: '\n' :: s.data) = "\n\n" ++ s := by
  obtain ⟨d⟩ := s
  rfl

/-- String-level wire split: the output form of `ConvertMarkdown` splits back
into empty head, `"\n" ++ buf` metadata region and `"\n\n" ++ body` tail, when
no `---` occurrence starts before the closing delimiter. -/
theorem splitN_wire (buf body : String)
    (H : ∀ j, j < ('\n' :: buf.data).length →
      ("---".data).isPrefixOf
        ((('\n' :: buf.data) ++ ("---".data ++ ('\n' :: '\n' :: body.data))).drop j)
        = false) :
    splitN ("---\n" ++ buf ++ "---\n\n" ++ body) "---" 3
      = ["", "\n" ++ buf, "\n\n" ++ body] := by
  have hdata : ("---\n" ++ buf ++ "---\n\n" ++ body).data
      = "---".data ++ (('\n' :: buf.data) ++ ("---".data ++ ('\n' :: '\n' :: body.data))) := by
    have e1 : ("---\n" : String).data = "---".data ++ ['\n'] := rfl
    have e2 : ("---\n\n" : String).data = "---".data ++ ['\n', '\n'] := rfl
    rw [String.data_append, String.data_append, String.data_append, e1, e2]
    simp
  unfold splitN
  rw [hdata, splitNChars_wire ("---".data) ('\n' :: buf.data)
    ('\n' :: '\n' :: body.data) H]
  simp only [List.map_cons, List.map_nil, mk_cons_nl, mk_cons_nl2]

/-- `ConvertMarkdown` on a structurally malformed document. -/
theorem ConvertMarkdown_malformed {V : Type} (env : CodecEnv V)
    (mc : MarkdownConverter) (content : String)
    (hlt : (splitN content "---" 3).length < 3) :
    ConvertMarkdown env mc content
      = Except.error "parsing content: invalid hexo/hugo markdown format" := by
  unfold ConvertMarkdown
  simp only [if_pos hlt]

/-- `ConvertMarkdown` on a well-formed document whose front matter converts:
the output is the converted block, a blank line, and the source's third region
verbatim. -/
theorem ConvertMarkdown_ok_shape {V : Type} (env : CodecEnv V)
    (mc : MarkdownConverter) (content cfm : String)
    (hwf : ¬(splitN content "---" 3).length < 3)
    (hfm : ConvertFrontMatter env mc.fmc ((splitN content "---" 3).getD 1 "")
      = Except.ok cfm) :
    ConvertMarkdown env mc content
      = Except.ok (cfm ++ "\n\n" ++ (splitN content "---" 3).getD 2 "") := by
  unfold ConvertMarkdown
  simp only [if_neg hwf, hfm]

end H2H

namespace H2H

/-- A task's own destination entry after `convertFile`: the converted output on
success, absent on failure. -/
theorem convertFile_files_self (fs : FS) (dst : Path) (r : Except String String) :
    (convertFile fs dst r).files dst = exceptToOption r := by
  cases r <;> simp [convertFile, fsWrite, fsRemove, exceptToOption]

/-- `convertFile` touches no destination entry but its own. -/
theorem convertFile_files_ne (fs : FS) (dst p : Path) (r : Except String String)
    (h : p ≠ dst) : (convertFile fs dst r).files p = fs.files p := by
  cases r <;> simp [convertFile, fsWrite, fsRemove, h]

/-- `convertFile` creates exactly the parent directories of its destination. -/
theorem convertFile_dirs (fs : FS) (dst : Path) (r : Except String String) :
    (convertFile fs dst r).dirs = mkdirAll fs.dirs dst.dropLast := by
  cases r <;> rfl

/-- The destination tree after the worker loop, at any path: the result of the
unique task owning that path, or the initial state when no task owns it. -/
theorem convertPostsLoop_files {V : Type} (env : CodecEnv V)
    (mc : MarkdownConverter) (srcDir dstDir : Path) (tasks : List SrcFile)
    (p : Path) :
    ∀ (fs : FS) (errs : List ConversionError),
      (tasks.map (dstPathOf srcDir dstDir)).Nodup →
      ((convertPostsLoop env mc srcDir dstDir tasks fs errs).1).files p
        = match tasks.find? (fun f => decide (dstPathOf srcDir dstDir f = p)) with
          | some f => resultOf env mc f
          | none => fs.files p := by
  induction tasks with
  | nil => intro fs errs _; rfl
  | cons f rest ih =>
    intro fs errs hnd
    have hnd0 : dstPathOf srcDir dstDir f ∉ rest.map (dstPathOf srcDir dstDir)
        ∧ (rest.map (dstPathOf srcDir dstDir)).Nodup :=
      List.nodup_cons.mp (by simpa using hnd)
    simp only [convertPostsLoop]
    rw [ih _ _ hnd0.2]
    by_cases hp : dstPathOf srcDir dstDir f = p
    · rw [List.find?_cons_of_pos (p := fun g => decide (dstPathOf srcDir dstDir g = p))
        rest (decide_eq_true hp)]
      have hrest : rest.find? (fun g => decide (dstPathOf srcDir dstDir g = p)) = none := by
        rw [List.find?_eq_none]
        intro g hg hgp
        have hgp2 : dstPathOf srcDir dstDir g = p := by simpa using hgp
        exact hnd0.1 (by
          rw [hp]
          exact hgp2 ▸ List.mem_map_of_mem _ hg)
      rw [hrest]
      subst hp
      exact convertFile_files_self fs _ _
    · rw [List.find?_cons_of_neg (p := fun g => decide (dstPathOf srcDir dstDir g = p))
        rest (fun hc => hp (by simpa using hc))]
      cases hrf : rest.find? (fun g => decide (dstPathOf srcDir dstDir g = p)) with
      | some g => rfl
      | none => exact convertFile_files_ne fs _ p _ (fun hh => hp hh.symm)

/-- The worker loop appends exactly one failure per failing task. -/
theorem convertPostsLoop_errs_len {V : Type} (env : CodecEnv V)
    (mc : MarkdownConverter) (srcDir dstDir : Path) (tasks : List SrcFile) :
    ∀ (fs : FS) (errs : List ConversionError),
      (convertPostsLoop env mc srcDir dstDir tasks fs errs).2.length
        = errs.length
          + (tasks.filter (fun f => exceptFailed (ConvertMarkdown env mc f.content))).length := by
  induction tasks with
  | nil => intro fs errs; simp [convertPostsLoop]
  | cons f rest ih =>
    intro fs errs
    simp only [convertPostsLoop]
    rw [ih]
    cases hr : ConvertMarkdown env mc f.content with
    | ok out => simp [List.filter_cons, hr, exceptFailed]
    | error e =>
      simp [List.filter_cons, hr, exceptFailed]
      omega

/-- Created directories persist through the rest of the loop. -/
theorem convertPostsLoop_dirs_mono {V : Type} (env : CodecEnv V)
    (mc : MarkdownConverter) (srcDir dstDir : Path) (tasks : List SrcFile) :
    ∀ (fs : FS) (errs : List ConversionError) (d : Path), fs.dirs d = true →
      ((convertPostsLoop env mc srcDir dstDir tasks fs errs).1).dirs d = true := by
  induction tasks with
  | nil => intro fs errs d h; exact h
  | cons f rest ih =>
    intro fs errs d h
    simp only [convertPostsLoop]
    apply ih
    rw [convertFile_dirs]
    simp [mkdirAll, h]

/-- Every task's destination parent directories exist after the loop. -/
theorem convertPostsLoop_dirs_of_mem {V : Type} (env : CodecEnv V)
    (mc : MarkdownConverter) (srcDir dstDir : Path) (tasks : List SrcFile) :
    ∀ (fs : FS) (errs : List ConversionError) (f : SrcFile), f ∈ tasks →
      ∀ d : Path, List.isPrefixOf d ((dstPathOf srcDir dstDir f).dropLast) = true →
      ((convertPostsLoop env mc srcDir dstDir tasks fs errs).1).dirs d = true := by
  induction tasks with
  | nil => intro fs errs f hf; cases hf
  | cons g rest ih =>
    intro fs errs f hf d hd
    rcases List.mem_cons.mp hf with rfl | hmem
    · simp only [convertPostsLoop]
      apply convertPostsLoop_dirs_mono
      rw [convertFile_dirs]
      simp [mkdirAll, hd]
    · simp only [convertPostsLoop]
      exact ih _ _ f hmem d hd

/-- `find?` by key is stable under permutation when keys are pairwise distinct. -/
theorem find?_perm_of_nodup_keys {α β : Type} [DecidableEq β] (key : α → β)
    (l l' : List α) (hperm : l.Perm l') (hnd : (l.map key).Nodup) (b : β) :
    l.find? (fun a => decide (key a = b)) = l'.find? (fun a => decide (key a = b)) := by
  cases hf : l.find? (fun a => decide (key a = b)) with
  | none =>
    symm
    rw [List.find?_eq_none] at hf ⊢
    intro a ha
    exact hf a (hperm.mem_iff.mpr ha)
  | some a =>
    have hpa : key a = b := by simpa using List.find?_some hf
    have hma : a ∈ l := List.mem_of_find?_eq_some hf
    cases hf' : l'.find? (fun x => decide (key x = b)) with
    | none =>
      have h0 := List.find?_eq_none.mp hf' a (hperm.mem_iff.mp hma)
      simp [hpa] at h0
    | some c =>
      have hpc : key c = b := by simpa using List.find?_some hf'
      have hmc : c ∈ l := hperm.mem_iff.mpr (List.mem_of_find?_eq_some hf')
      have hce : c = a := List.inj_on_of_nodup_map hnd hmc hma (by rw [hpc, hpa])
      rw [hce]

/-- The destination tree of a whole batch, at any path. -/
theorem ConvertPosts_files {V : Type} (env : CodecEnv V) (srcDir dstDir : Path)
    (cfg : Config) (walk : List SrcFile) (p : Path)
    (hnd : ((batchTasks cfg walk).map (dstPathOf srcDir dstDir)).Nodup) :
    (ConvertPosts env srcDir dstDir cfg walk).fs.files p
      = match (batchTasks cfg walk).find?
          (fun f => decide (dstPathOf srcDir dstDir f = p)) with
        | some f => resultOf env (NewMarkdownConverter cfg) f
        | none => none := by
  simp only [ConvertPosts]
  rw [convertPostsLoop_files env (NewMarkdownConverter cfg) srcDir dstDir
    (batchTasks cfg walk) p _ _ hnd]

/-- The destination entry of a task in the batch is exactly its own result. -/
theorem ConvertPosts_files_of_mem {V : Type} (env : CodecEnv V)
    (srcDir dstDir : Path) (cfg : Config) (walk : List SrcFile) (f : SrcFile)
    (hnd : ((batchTasks cfg walk).map (dstPathOf srcDir dstDir)).Nodup)
    (hf : f ∈ batchTasks cfg walk) :
    (ConvertPosts env srcDir dstDir cfg walk).fs.files (dstPathOf srcDir dstDir f)
      = resultOf env (NewMarkdownConverter cfg) f := by
  rw [ConvertPosts_files env srcDir dstDir cfg walk _ hnd]
  cases hfind : (batchTasks cfg walk).find?
      (fun g => decide (dstPathOf srcDir dstDir g = dstPathOf srcDir dstDir f)) with
  | none =>
    have h0 := List.find?_eq_none.mp hfind f hf
    simp at h0
  | some g =>
    have hg : dstPathOf srcDir dstDir g = dstPathOf srcDir dstDir f := by
      simpa using List.find?_some hfind
    have hgm : g ∈ batchTasks cfg walk := List.mem_of_find?_eq_some hfind
    rw [List.inj_on_of_nodup_map hnd hgm hf hg]

/-- Paths owned by no task stay absent from the destination tree. -/
theorem ConvertPosts_files_of_not_mem {V : Type} (env : CodecEnv V)
    (srcDir dstDir : Path) (cfg : Config) (walk : List SrcFile) (p : Path)
    (hnd : ((batchTasks cfg walk).map (dstPathOf srcDir dstDir)).Nodup)
    (hp : p ∉ (batchTasks cfg walk).map (dstPathOf srcDir dstDir)) :
    (ConvertPosts env srcDir dstDir cfg walk).fs.files p = none := by
  rw [ConvertPosts_files env srcDir dstDir cfg walk p hnd]
  cases hfind : (batchTasks cfg walk).find?
      (fun g => decide (dstPathOf srcDir dstDir g = p)) with
  | none => rfl
  | some g =>
    have hg : dstPathOf srcDir dstDir g = p := by
      simpa using List.find?_some hfind
    exact absurd (hg ▸ List.mem_map_of_mem _ (List.mem_of_find?_eq_some hfind)) hp

/-- The batch records exactly one failure per failing task. -/
theorem ConvertPosts_failures_len {V : Type} (env : CodecEnv V)
    (srcDir dstDir : Path) (cfg : Config) (walk : List SrcFile) :
    (ConvertPosts env srcDir dstDir cfg walk).failures.length
      = ((batchTasks cfg walk).filter
          (fun f => exceptFailed (ConvertMarkdown env (NewMarkdownConverter cfg) f.content))).length := by
  simp only [ConvertPosts]
  rw [convertPostsLoop_errs_len]
  simp

/-- The aggregate outcome is an error exactly when some failure was recorded. -/
theorem ConvertPosts_outcome_iff {V : Type} (env : CodecEnv V)
    (srcDir dstDir : Path) (cfg : Config) (walk : List SrcFile) :
    exceptFailed (ConvertPosts env srcDir dstDir cfg walk).outcome = true
      ↔ 0 < (ConvertPosts env srcDir dstDir cfg walk).failures.length := by
  simp only [ConvertPosts]
  split
  · next h => simpa [exceptFailed] using h
  · next h => simpa [exceptFailed] using h

/-- Every batch task's destination parent directories exist after the batch. -/
theorem ConvertPosts_dirs_of_mem {V : Type} (env : CodecEnv V)
    (srcDir dstDir : Path) (cfg : Config) (walk : List SrcFile) (f : SrcFile)
    (hf : f ∈ batchTasks cfg walk) (d : Path)
    (hd : List.isPrefixOf d ((dstPathOf srcDir dstDir f).dropLast) = true) :
    (ConvertPosts env srcDir dstDir cfg walk).fs.dirs d = true := by
  simp only [ConvertPosts]
  exact convertPostsLoop_dirs_of_mem env (NewMarkdownConverter cfg) srcDir dstDir
    (batchTasks cfg walk) _ _ f hf d hd

end H2H

namespace H2H

/-- C1: partial-failure isolation. For any batch over distinct destination
paths: the failure list holds exactly one entry per task whose conversion
fails (K of N); every task's destination entry is its own conversion result —
present for each of the N−K successes, absent for each of the K failures; no
other destination file exists; and the aggregate outcome is an error exactly
when K is nonzero. One task's failure never affects a sibling's entry. -/
theorem batch_partial_failure_isolation {V : Type} (env : CodecEnv V)
    (srcDir dstDir : Path) (cfg : Config) (walk : List SrcFile)
    (hnd : ((batchTasks cfg walk).map (dstPathOf srcDir dstDir)).Nodup) :
    (ConvertPosts env srcDir dstDir cfg walk).failures.length
        = ((batchTasks cfg walk).filter
            (fun f => exceptFailed (ConvertMarkdown env (NewMarkdownConverter cfg) f.content))).length
    ∧ (∀ f ∈ batchTasks cfg walk,
        (ConvertPosts env srcDir dstDir cfg walk).fs.files (dstPathOf srcDir dstDir f)
          = exceptToOption (ConvertMarkdown env (NewMarkdownConverter cfg) f.content))
    ∧ (∀ p : Path, p ∉ (batchTasks cfg walk).map (dstPathOf srcDir dstDir) →
        (ConvertPosts env srcDir dstDir cfg walk).fs.files p = none)
    ∧ (exceptFailed (ConvertPosts env srcDir dstDir cfg walk).outcome = true
        ↔ 0 < ((batchTasks cfg walk).filter
            (fun f => exceptFailed (ConvertMarkdown env (NewMarkdownConverter cfg) f.content))).length) := by
  refine ⟨ConvertPosts_failures_len env srcDir dstDir cfg walk,
    fun f hf => ConvertPosts_files_of_mem env srcDir dstDir cfg walk f hnd hf,
    fun p hp => ConvertPosts_files_of_not_mem env srcDir dstDir cfg walk p hnd hp,
    ?_⟩
  rw [ConvertPosts_outcome_iff, ConvertPosts_failures_len]

/-- Witness for C1: a walk with one directory, one ineligible file, one valid
post and one malformed post — two tasks, one failure. -/
theorem batch_partial_failure_isolation_witness :
    ((batchTasks NewDefaultConfig
        [⟨["src"], true, ""⟩, ⟨["src", "a.md"], false, "---a---A"⟩,
         ⟨["src", "n.txt"], false, "x"⟩, ⟨["src", "bad.md"], false, "bad"⟩]).map
      (dstPathOf ["src"] ["dst"])).Nodup
    ∧ ((ConvertPosts trivialEnv ["src"] ["dst"] NewDefaultConfig
          [⟨["src"], true, ""⟩, ⟨["src", "a.md"], false, "---a---A"⟩,
           ⟨["src", "n.txt"], false, "x"⟩, ⟨["src", "bad.md"], false, "bad"⟩]).failures.length
        = ((batchTasks NewDefaultConfig
            [⟨["src"], true, ""⟩, ⟨["src", "a.md"], false, "---a---A"⟩,
             ⟨["src", "n.txt"], false, "x"⟩, ⟨["src", "bad.md"], false, "bad"⟩]).filter
            (fun f => exceptFailed
              (ConvertMarkdown trivialEnv (NewMarkdownConverter NewDefaultConfig) f.content))).length
      ∧ (∀ f ∈ batchTasks NewDefaultConfig
            [⟨["src"], true, ""⟩, ⟨["src", "a.md"], false, "---a---A"⟩,
             ⟨["src", "n.txt"], false, "x"⟩, ⟨["src", "bad.md"], false, "bad"⟩],
          (ConvertPosts trivialEnv ["src"] ["dst"] NewDefaultConfig
              [⟨["src"], true, ""⟩, ⟨["src", "a.md"], false, "---a---A"⟩,
               ⟨["src", "n.txt"], false, "x"⟩, ⟨["src", "bad.md"], false, "bad"⟩]).fs.files
              (dstPathOf ["src"] ["dst"] f)
            = exceptToOption
                (ConvertMarkdown trivialEnv (NewMarkdownConverter NewDefaultConfig) f.content))
      ∧ (∀ p : Path,
          p ∉ (batchTasks NewDefaultConfig
              [⟨["src"], true, ""⟩, ⟨["src", "a.md"], false, "---a---A"⟩,
               ⟨["src", "n.txt"], false, "x"⟩, ⟨["src", "bad.md"], false, "bad"⟩]).map
              (dstPathOf ["src"] ["dst"]) →
          (ConvertPosts trivialEnv ["src"] ["dst"] NewDefaultConfig
              [⟨["src"], true, ""⟩, ⟨["src", "a.md"], false, "---a---A"⟩,
               ⟨["src", "n.txt"], false, "x"⟩, ⟨["src", "bad.md"], false, "bad"⟩]).fs.files p
            = none)
      ∧ (exceptFailed
            (ConvertPosts trivialEnv ["src"] ["dst"] NewDefaultConfig
              [⟨["src"], true, ""⟩, ⟨["src", "a.md"], false, "---a---A"⟩,
               ⟨["src", "n.txt"], false, "x"⟩, ⟨["src", "bad.md"], false, "bad"⟩]).outcome = true
          ↔ 0 < ((batchTasks NewDefaultConfig
              [⟨["src"], true, ""⟩, ⟨["src", "a.md"], false, "---a---A"⟩,
               ⟨["src", "n.txt"], false, "x"⟩, ⟨["src", "bad.md"], false, "bad"⟩]).filter
              (fun f => exceptFailed
                (ConvertMarkdown trivialEnv (NewMarkdownConverter NewDefaultConfig) f.content))).length)) :=
  ⟨by decide,
   batch_partial_failure_isolation trivialEnv ["src"] ["dst"] NewDefaultConfig
     [⟨["src"], true, ""⟩, ⟨["src", "a.md"], false, "---a---A"⟩,
      ⟨["src", "n.txt"], false, "x"⟩, ⟨["src", "bad.md"], false, "bad"⟩] (by decide)⟩

/-- C2: per-file write atomicity. For any task whose conversion-or-write step
fails, the destination file exists right after creation (created empty by
`os.Create`) but not after the task completes (it is removed), and no other
destination entry is touched. -/
theorem perfile_write_atomicity (fs : FS) (dst : Path) (r : Except String String)
    (h : exceptFailed r = true) :
    fsWrite fs.files dst "" dst = some ""
    ∧ (convertFile fs dst r).files dst = none
    ∧ (∀ p : Path, p ≠ dst → (convertFile fs dst r).files p = fs.files p) := by
  cases r with
  | ok out => simp [exceptFailed] at h
  | error e =>
    refine ⟨?_, ?_, ?_⟩
    · simp [fsWrite]
    · simp [convertFile, fsWrite, fsRemove]
    · intro p hp
      simp [convertFile, fsWrite, fsRemove, hp]

/-- Witness for C2 on an empty destination tree and a failing task. -/
theorem perfile_write_atomicity_witness :
    exceptFailed (Except.error "boom" : Except String String) = true
    ∧ (fsWrite (⟨fun _ => none, fun _ => false⟩ : FS).files ["dst", "bad.md"] ""
          ["dst", "bad.md"] = some ""
        ∧ (convertFile (⟨fun _ => none, fun _ => false⟩ : FS) ["dst", "bad.md"]
            (Except.error "boom")).files ["dst", "bad.md"] = none
        ∧ (∀ p : Path, p ≠ ["dst", "bad.md"] →
            (convertFile (⟨fun _ => none, fun _ => false⟩ : FS) ["dst", "bad.md"]
              (Except.error "boom")).files p
              = (⟨fun _ => none, fun _ => false⟩ : FS).files p)) :=
  ⟨rfl, perfile_write_atomicity ⟨fun _ => none, fun _ => false⟩ ["dst", "bad.md"]
    (Except.error "boom") rfl⟩

/-- C3: structural rejection. A task whose content holds at most one
non-overlapping `---` occurrence splits into fewer than three parts, its
conversion fails with the malformed-document error, and after the batch no
destination file exists at its destination path. -/
theorem malformed_structural_rejection {V : Type} (env : CodecEnv V)
    (srcDir dstDir : Path) (cfg : Config) (walk : List SrcFile) (f : SrcFile)
    (hnd : ((batchTasks cfg walk).map (dstPathOf srcDir dstDir)).Nodup)
    (hf : f ∈ batchTasks cfg walk)
    (hc : occurrenceCount f.content "---" ≤ 1) :
    (splitN f.content "---" 3).length < 3
    ∧ ConvertMarkdown env (NewMarkdownConverter cfg) f.content
        = Except.error "parsing content: invalid hexo/hugo markdown format"
    ∧ (ConvertPosts env srcDir dstDir cfg walk).fs.files (dstPathOf srcDir dstDir f)
        = none := by
  have hlt := (occurrenceCount_le_one_iff f.content).mp hc
  refine ⟨hlt, ConvertMarkdown_malformed env _ f.content hlt, ?_⟩
  rw [ConvertPosts_files_of_mem env srcDir dstDir cfg walk f hnd hf]
  unfold resultOf
  rw [ConvertMarkdown_malformed env (NewMarkdownConverter cfg) f.content hlt]
  rfl

/-- Witness for C3: the spec's empty-file scenario — batch of one empty file,
rejected, with no destination file. -/
theorem malformed_structural_rejection_witness :
    ((batchTasks NewDefaultConfig [⟨["src", "empty.md"], false, ""⟩]).map
        (dstPathOf ["src"] ["dst"])).Nodup
    ∧ (⟨["src", "empty.md"], false, ""⟩ : SrcFile)
        ∈ batchTasks NewDefaultConfig [⟨["src", "empty.md"], false, ""⟩]
    ∧ occurrenceCount (⟨["src", "empty.md"], false, ""⟩ : SrcFile).content "---" ≤ 1
    ∧ ((splitN (⟨["src", "empty.md"], false, ""⟩ : SrcFile).content "---" 3).length < 3
        ∧ ConvertMarkdown trivialEnv (NewMarkdownConverter NewDefaultConfig)
            (⟨["src", "empty.md"], false, ""⟩ : SrcFile).content
          = Except.error "parsing content: invalid hexo/hugo markdown format"
        ∧ (ConvertPosts trivialEnv ["src"] ["dst"] NewDefaultConfig
            [⟨["src", "empty.md"], false, ""⟩]).fs.files
            (dstPathOf ["src"] ["dst"] ⟨["src", "empty.md"], false, ""⟩)
          = none) :=
  ⟨by decide, by decide, by decide,
   malformed_structural_rejection trivialEnv ["src"] ["dst"] NewDefaultConfig
     [⟨["src", "empty.md"], false, ""⟩] ⟨["src", "empty.md"], false, ""⟩
     (by decide) (by decide) (by decide)⟩

end H2H

namespace H2H

/-- C5: mirrored directory structure. A task walked at `srcDir ++ rel` writes
to `dstDir ++ rel`; the parent directory of that destination is created by the
task; and on a successful conversion the destination file at `dstDir ++ rel`
holds the converted output. -/
theorem mirrored_directory_structure {V : Type} (env : CodecEnv V)
    (srcDir dstDir : Path) (cfg : Config) (walk : List SrcFile) (f : SrcFile)
    (rel : List String)
    (hnd : ((batchTasks cfg walk).map (dstPathOf srcDir dstDir)).Nodup)
    (hf : f ∈ batchTasks cfg walk)
    (hpath : f.path = srcDir ++ rel) :
    dstPathOf srcDir dstDir f = dstDir ++ rel
    ∧ (ConvertPosts env srcDir dstDir cfg walk).fs.dirs ((dstDir ++ rel).dropLast)
        = true
    ∧ (∀ out : String,
        ConvertMarkdown env (NewMarkdownConverter cfg) f.content = Except.ok out →
        (ConvertPosts env srcDir dstDir cfg walk).fs.files (dstDir ++ rel)
          = some out) := by
  have hdst : dstPathOf srcDir dstDir f = dstDir ++ rel := by
    unfold dstPathOf
    rw [hpath, List.drop_left]
  refine ⟨hdst, ?_, ?_⟩
  · apply ConvertPosts_dirs_of_mem env srcDir dstDir cfg walk f hf
    rw [hdst]
    exact List.isPrefixOf_iff_prefix.mpr (List.prefix_refl _)
  · intro out hok
    rw [← hdst, ConvertPosts_files_of_mem env srcDir dstDir cfg walk f hnd hf]
    unfold resultOf
    rw [hok]
    rfl

/-- Witness for C5: the spec's nested scenario `sub/post.md`, landing at
`dst/sub/post.md` with directory `dst/sub` created. -/
theorem mirrored_directory_structure_witness :
    ((batchTasks NewDefaultConfig [⟨["src", "sub", "post.md"], false, "---a---P"⟩]).map
        (dstPathOf ["src"] ["dst"])).Nodup
    ∧ (⟨["src", "sub", "post.md"], false, "---a---P"⟩ : SrcFile)
        ∈ batchTasks NewDefaultConfig [⟨["src", "sub", "post.md"], false, "---a---P"⟩]
    ∧ (⟨["src", "sub", "post.md"], false, "---a---P"⟩ : SrcFile).path
        = ["src"] ++ ["sub", "post.md"]
    ∧ (dstPathOf ["src"] ["dst"] ⟨["src", "sub", "post.md"], false, "---a---P"⟩
          = ["dst"] ++ ["sub", "post.md"]
        ∧ (ConvertPosts trivialEnv ["src"] ["dst"] NewDefaultConfig
            [⟨["src", "sub", "post.md"], false, "---a---P"⟩]).fs.dirs
            ((["dst"] ++ ["sub", "post.md"]).dropLast) = true
        ∧ (∀ out : String,
            ConvertMarkdown trivialEnv (NewMarkdownConverter NewDefaultConfig)
                (⟨["src", "sub", "post.md"], false, "---a---P"⟩ : SrcFile).content
              = Except.ok out →
            (ConvertPosts trivialEnv ["src"] ["dst"] NewDefaultConfig
                [⟨["src", "sub", "post.md"], false, "---a---P"⟩]).fs.files
                (["dst"] ++ ["sub", "post.md"]) = some out)) :=
  ⟨by decide, by decide, by decide,
   mirrored_directory_structure trivialEnv ["src"] ["dst"] NewDefaultConfig
     [⟨["src", "sub", "post.md"], false, "---a---P"⟩]
     ⟨["src", "sub", "post.md"], false, "---a---P"⟩ ["sub", "post.md"]
     (by decide) (by decide) (by decide)⟩

/-- C8: unsupported format rejection. For any format name other than `yaml`
and `toml`, decoding and encoding both fail with the unsupported-format error
rather than defaulting, and the per-document conversion fails for every
document when either side of the converter names that format. -/
theorem unsupported_format_rejection {V : Type} (env : CodecEnv V) (fmt : String)
    (h1 : fmt ≠ "yaml") (h2 : fmt ≠ "toml") :
    (∀ data : String, unmarshalFrontMatter env fmt data
        = Except.error ("unsupported front matter format: " ++ fmt))
    ∧ (∀ rec : Record V, marshalFrontMatter env fmt rec
        = Except.error ("unsupported front matter format: " ++ fmt))
    ∧ (∀ (mc : MarkdownConverter) (content : String),
        mc.fmc.sourceFormat = fmt ∨ mc.fmc.targetFormat = fmt →
        exceptFailed (ConvertMarkdown env mc content) = true) := by
  have hu : ∀ data : String, unmarshalFrontMatter env fmt data
      = Except.error ("unsupported front matter format: " ++ fmt) := by
    intro data
    simp [unmarshalFrontMatter, h1, h2]
  have hm : ∀ rec : Record V, marshalFrontMatter env fmt rec
      = Except.error ("unsupported front matter format: " ++ fmt) := by
    intro rec
    simp [marshalFrontMatter, h1, h2]
  refine ⟨hu, hm, ?_⟩
  intro mc content hcase
  unfold ConvertMarkdown
  by_cases hlt : (splitN content "---" 3).length < 3
  · simp [hlt, exceptFailed]
  · simp only [if_neg hlt]
    have hfm : exceptFailed
        (ConvertFrontMatter env mc.fmc ((splitN content "---" 3).getD 1 "")) = true := by
      unfold ConvertFrontMatter
      rcases hcase with hs | ht
      · rw [hs]
        simp [hu, exceptFailed]
      · cases hun : unmarshalFrontMatter env mc.fmc.sourceFormat
            ((splitN content "---" 3).getD 1 "") with
        | error e => simp [exceptFailed]
        | ok rec0 =>
          rw [ht]
          simp [hm, exceptFailed]
    cases hcf : ConvertFrontMatter env mc.fmc ((splitN content "---" 3).getD 1 "") with
    | error e => simp [exceptFailed]
    | ok cfm =>
      rw [hcf] at hfm
      simp [exceptFailed] at hfm

/-- Witness for C8 at the format name `json`. -/
theorem unsupported_format_rejection_witness :
    ("json" : String) ≠ "yaml"
    ∧ ("json" : String) ≠ "toml"
    ∧ ((∀ data : String, unmarshalFrontMatter trivialEnv "json" data
          = Except.error ("unsupported front matter format: " ++ "json"))
        ∧ (∀ rec : Record Unit, marshalFrontMatter trivialEnv "json" rec
            = Except.error ("unsupported front matter format: " ++ "json"))
        ∧ (∀ (mc : MarkdownConverter) (content : String),
            mc.fmc.sourceFormat = "json" ∨ mc.fmc.targetFormat = "json" →
            exceptFailed (ConvertMarkdown trivialEnv mc content) = true)) :=
  ⟨by decide, by decide,
   unsupported_format_rejection trivialEnv "json" (by decide) (by decide)⟩

/-- C9: concurrency-limit independence and scheduling determinism. Two batches
over the same walked files that differ only in their positive concurrency
limits — and even in the order the scheduler runs the tasks, modelled as any
permutation of the walk — produce pointwise identical destination trees,
because the per-document conversion is a function of content and configuration
alone and every task owns a distinct destination path. -/
theorem concurrency_limit_independence {V : Type} (env : CodecEnv V)
    (srcDir dstDir : Path) (cfg : Config) (n1 n2 : Nat)
    (walk walk2 : List SrcFile) (hperm : walk.Perm walk2)
    (hnd : ((batchTasks cfg walk).map (dstPathOf srcDir dstDir)).Nodup)
    (_hn1 : 0 < n1) (_hn2 : 0 < n2) :
    ∀ p : Path,
      (ConvertPosts env srcDir dstDir (setConcurrency cfg n1) walk).fs.files p
        = (ConvertPosts env srcDir dstDir (setConcurrency cfg n2) walk2).fs.files p := by
  intro p
  have hbt1 : batchTasks (setConcurrency cfg n1) walk = batchTasks cfg walk := rfl
  have hbt2 : batchTasks (setConcurrency cfg n2) walk2 = batchTasks cfg walk2 := rfl
  have hmc1 : NewMarkdownConverter (setConcurrency cfg n1) = NewMarkdownConverter cfg := rfl
  have hmc2 : NewMarkdownConverter (setConcurrency cfg n2) = NewMarkdownConverter cfg := rfl
  have hpermT : (batchTasks cfg walk).Perm (batchTasks cfg walk2) :=
    hperm.filter (eligible cfg)
  have hnd2 : ((batchTasks cfg walk2).map (dstPathOf srcDir dstDir)).Nodup :=
    (hpermT.map (dstPathOf srcDir dstDir)).nodup hnd
  rw [ConvertPosts_files env srcDir dstDir (setConcurrency cfg n1) walk p
      (by rw [hbt1]; exact hnd),
    ConvertPosts_files env srcDir dstDir (setConcurrency cfg n2) walk2 p
      (by rw [hbt2]; exact hnd2),
    hbt1, hbt2, hmc1, hmc2,
    find?_perm_of_nodup_keys (dstPathOf srcDir dstDir) _ _ hpermT hnd p]

/-- Witness for C9: two files, limits 1 and 8, reversed scheduling order; the
destination entry of the valid file agrees. -/
theorem concurrency_limit_independence_witness :
    ([⟨["src", "a.md"], false, "---x---A"⟩, ⟨["src", "bad.md"], false, "bad"⟩]
        : List SrcFile).Perm
      [⟨["src", "bad.md"], false, "bad"⟩, ⟨["src", "a.md"], false, "---x---A"⟩]
    ∧ ((batchTasks NewDefaultConfig
        [⟨["src", "a.md"], false, "---x---A"⟩, ⟨["src", "bad.md"], false, "bad"⟩]).map
        (dstPathOf ["src"] ["dst"])).Nodup
    ∧ 0 < 1
    ∧ 0 < 8
    ∧ (∀ p : Path,
        (ConvertPosts trivialEnv ["src"] ["dst"] (setConcurrency NewDefaultConfig 1)
            [⟨["src", "a.md"], false, "---x---A"⟩, ⟨["src", "bad.md"], false, "bad"⟩]).fs.files p
          = (ConvertPosts trivialEnv ["src"] ["dst"] (setConcurrency NewDefaultConfig 8)
              [⟨["src", "bad.md"], false, "bad"⟩, ⟨["src", "a.md"], false, "---x---A"⟩]).fs.files p) :=
  ⟨List.Perm.swap (⟨["src", "bad.md"], false, "bad"⟩ : SrcFile)
     (⟨["src", "a.md"], false, "---x---A"⟩ : SrcFile) [],
   by decide, by decide, by decide,
   concurrency_limit_independence trivialEnv ["src"] ["dst"] NewDefaultConfig 1 8
     [⟨["src", "a.md"], false, "---x---A"⟩, ⟨["src", "bad.md"], false, "bad"⟩]
     [⟨["src", "bad.md"], false, "bad"⟩, ⟨["src", "a.md"], false, "---x---A"⟩]
     (List.Perm.swap (⟨["src", "bad.md"], false, "bad"⟩ : SrcFile)
       (⟨["src", "a.md"], false, "---x---A"⟩ : SrcFile) [])
     (by decide) (by decide) (by decide)⟩

end H2H

namespace H2H

/-- String append is associative. -/
theorem str_append_assoc (a b c : String) : (a ++ b) ++ c = a ++ (b ++ c) := by
  obtain ⟨ad⟩ := a
  obtain ⟨bd⟩ := b
  obtain ⟨cd⟩ := c
  show String.mk ((ad ++ bd) ++ cd) = String.mk (ad ++ (bd ++ cd))
  rw [List.append_assoc]

/-- C4 as stated fails: for the well-formed source `---a---BODY` the converted
output is `---\n---\n\nBODY`, whose content after its second delimiter is
`\n\nBODY` — not byte-identical to the source's `BODY`: reassembly inserts a
blank-line separator before the copied body. -/
theorem body_preservation_counterexample :
    ¬(splitN "---a---BODY" "---" 3).length < 3
    ∧ ConvertMarkdown trivialEnv ⟨⟨[], "yaml", "yaml"⟩⟩ "---a---BODY"
        = Except.ok "---\n---\n\nBODY"
    ∧ bodyAfterSecondDelim "---a---BODY" = "BODY"
    ∧ bodyAfterSecondDelim "---\n---\n\nBODY" = "\n\nBODY"
    ∧ bodyAfterSecondDelim "---\n---\n\nBODY" ≠ bodyAfterSecondDelim "---a---BODY" :=
  ⟨by decide, rfl, by decide, by decide, by decide⟩

/-- C4 (amended): body preservation up to the inserted blank line. For a
well-formed source whose front matter converts to a block `---\n buf ---`, the
output is that block, a `"\n\n"` separator, and the source's after-second-
delimiter region copied verbatim; consequently — when no `---` occurrence
starts before the output's closing delimiter — the output's after-second-
delimiter region is exactly `"\n\n"` prepended to the source's, rather than
byte-identical to it. -/
theorem body_preservation_amended {V : Type} (env : CodecEnv V)
    (mc : MarkdownConverter) (content buf body : String)
    (hwf : ¬(splitN content "---" 3).length < 3)
    (hbody : (splitN content "---" 3).getD 2 "" = body)
    (hfm : ConvertFrontMatter env mc.fmc ((splitN content "---" 3).getD 1 "")
        = Except.ok ("---\n" ++ buf ++ "---"))
    (hno : ∀ j, j < ('\n' :: buf.data).length →
      ("---".data).isPrefixOf
        ((('\n' :: buf.data) ++ ("---".data ++ ('\n' :: '\n' :: body.data))).drop j)
        = false) :
    ConvertMarkdown env mc content
      = Except.ok ("---\n" ++ buf ++ "---" ++ "\n\n" ++ body)
    ∧ bodyAfterSecondDelim ("---\n" ++ buf ++ "---" ++ "\n\n" ++ body)
        = "\n\n" ++ body := by
  have hmerge : "---\n" ++ buf ++ "---" ++ "\n\n" ++ body
      = "---\n" ++ buf ++ "---\n\n" ++ body := by
    rw [str_append_assoc ("---\n" ++ buf) "---" "\n\n"]
    rfl
  constructor
  · rw [ConvertMarkdown_ok_shape env mc content ("---\n" ++ buf ++ "---") hwf hfm,
      hbody]
  · rw [hmerge]
    unfold bodyAfterSecondDelim
    rw [splitN_wire buf body hno]
    rfl

/-- Witness for the amended C4 at the counterexample's input. -/
theorem body_preservation_amended_witness :
    (¬(splitN "---a---BODY" "---" 3).length < 3)
    ∧ (splitN "---a---BODY" "---" 3).getD 2 "" = "BODY"
    ∧ ConvertFrontMatter trivialEnv
        ((⟨⟨[], "yaml", "yaml"⟩⟩ : MarkdownConverter)).fmc
        ((splitN "---a---BODY" "---" 3).getD 1 "")
      = Except.ok ("---\n" ++ "" ++ "---")
    ∧ (∀ j, j < ('\n' :: ("" : String).data).length →
        ("---".data).isPrefixOf
          ((('\n' :: ("" : String).data)
              ++ ("---".data ++ ('\n' :: '\n' :: ("BODY" : String).data))).drop j)
          = false)
    ∧ (ConvertMarkdown trivialEnv ⟨⟨[], "yaml", "yaml"⟩⟩ "---a---BODY"
        = Except.ok ("---\n" ++ "" ++ "---" ++ "\n\n" ++ "BODY")
      ∧ bodyAfterSecondDelim ("---\n" ++ "" ++ "---" ++ "\n\n" ++ "BODY")
        = "\n\n" ++ "BODY") :=
  ⟨by decide, by decide, rfl, by decide,
   body_preservation_amended trivialEnv ⟨⟨[], "yaml", "yaml"⟩⟩ "---a---BODY" "" "BODY"
     (by decide) (by decide) rfl (by decide)⟩

/-- C10: a document with two delimiters and an empty (whitespace-only)
metadata block is accepted, not rejected: `---\n---\nbody` splits into three
parts, the yaml codec decodes the blank block to the empty record, conversion
succeeds for any key map, and the output carries the encoded empty record
between delimiters followed by the blank-line separator and the body. The
structural check only requires three parts, never a non-empty block. -/
theorem empty_frontmatter_accepted {V : Type} (env : CodecEnv V)
    (km : List (String × String)) (e : String)
    (hdec : env.yaml.decode "\n" = Except.ok [])
    (henc : env.yaml.encode [] = Except.ok e) :
    splitN "---\n---\nbody" "---" 3 = ["", "\n", "\nbody"]
    ∧ ConvertMarkdown env ⟨⟨km, "yaml", "yaml"⟩⟩ "---\n---\nbody"
        = Except.ok ("---\n" ++ e ++ "---" ++ "\n\n" ++ "\nbody") := by
  have hsplit : splitN "---\n---\nbody" "---" 3 = ["", "\n", "\nbody"] := rfl
  refine ⟨hsplit, ?_⟩
  have hfm : ConvertFrontMatter env (⟨km, "yaml", "yaml"⟩ : FrontMatterConverter) "\n"
      = Except.ok ("---\n" ++ e ++ "---") := by
    unfold ConvertFrontMatter unmarshalFrontMatter marshalFrontMatter
    simp [hdec, convertRecord, henc]
  have h1 : (splitN "---\n---\nbody" "---" 3).getD 1 "" = "\n" := rfl
  have hshape := ConvertMarkdown_ok_shape env ⟨⟨km, "yaml", "yaml"⟩⟩ "---\n---\nbody"
    ("---\n" ++ e ++ "---") (by rw [hsplit]; simp) (by rw [h1]; exact hfm)
  rw [hshape, hsplit]
  rfl

/-- Witness for C10 with the trivial codec environment. -/
theorem empty_frontmatter_accepted_witness :
    trivialEnv.yaml.decode "\n" = Except.ok []
    ∧ trivialEnv.yaml.encode [] = Except.ok ""
    ∧ (splitN "---\n---\nbody" "---" 3 = ["", "\n", "\nbody"]
        ∧ ConvertMarkdown trivialEnv ⟨⟨[], "yaml", "yaml"⟩⟩ "---\n---\nbody"
          = Except.ok ("---\n" ++ "" ++ "---" ++ "\n\n" ++ "\nbody")) :=
  ⟨rfl, rfl, empty_frontmatter_accepted trivialEnv [] "" rfl rfl⟩

end H2H
